import Mathlib

/-!
Verification of the PCI interrupt-routing subsystem of `kernel_riscv/src/pci.rs`.

Shallow embedding of the kernel PCI configuration/interrupt-routing code:

* `PciAddress` mirrors `pci_types::PciAddress` (segment, bus, device, function).
* The global `INTERRUPT_ROUTING: Spinlock<BTreeMap<u32, Vec<Arc<Event>>>>` is
  modelled as an association list from vector numbers to lists of event
  identifiers, threaded explicitly through each operation as part of `SysState`.
  `BTreeMap::insert` (which replaces any existing entry) is `assocInsert`,
  `BTreeMap::get` is `assocGet`.
* `Arc<Event>` wait-objects are modelled by identity: `Event::new()` hands out
  the next value of a freshness counter (`SysState.nextEvent`), so two calls
  return distinct identifiers, mirroring distinct allocations.
* Rust panics (`expect`, `unwrap`, `panic!`) are modelled by returning `none`
  (or the `panicked` constructor for `PciAccess.new`).
* Machine integers are `Nat` with explicit `% 2^w` where the source truncates
  (`pin as u8`, `u32` wrapping add); the `get_bits (a..b)` of `bit_field` is
  `getBits x a b = x / 2^a % 2^(b-a)`.
* External collaborators whose code is not among the sources of this repository
  (`physical_to_virtual`, the low-level interrupt controller registration
  `handle_wired_device_interrupt` / `handle_interrupt`, the volatile MMIO
  transactions themselves) are kept out of the state: physical addresses are
  used directly, and MMIO writes are returned as records so theorems can speak
  about the values stored.
-/

/-- Model of `x.get_bits(a..b)` from the `bit_field` crate: bits `a`
(inclusive) to `b` (exclusive). -/
def getBits (x a b : Nat) : Nat := x / 2 ^ a % 2 ^ (b - a)

/-- `pci_types::PciAddress` (a segment/bus/device/function quadruple). -/
structure PciAddress where
  segment : Nat
  bus : Nat
  device : Nat
  function : Nat
deriving DecidableEq, Repr

/-- Event identifier standing for one `Arc<Event>` allocation. -/
abbrev EventId := Nat

/-- Association-list model of `BTreeMap` lookup (`get`). -/
def assocGet {κ α : Type} [DecidableEq κ] (m : List (κ × α)) (k : κ) : Option α :=
  match m with
  | [] => none
  | (k', v) :: rest => if k' = k then some v else assocGet rest k

/-- Association-list model of `BTreeMap::insert`: replaces the value when the
key is present, otherwise appends a fresh binding. -/
def assocInsert {κ α : Type} [DecidableEq κ] (m : List (κ × α)) (k : κ) (v : α) :
    List (κ × α) :=
  match m with
  | [] => [(k, v)]
  | (k', v') :: rest =>
      if k' = k then (k, v) :: rest else (k', v') :: assocInsert rest k v

/-- The `INTERRUPT_ROUTING` table: vector number (`u32`) to waiting events. -/
abbrev Routing := List (Nat × List EventId)

/-- The legacy remapping table `BTreeMap<(PciAddress, u8), u32>`. -/
abbrev LegacyMap := List ((PciAddress × Nat) × Nat)

/-- Mutable kernel state touched by the configurator: the global routing table
plus the freshness counter backing `Event::new()`. -/
structure SysState where
  routing : Routing
  nextEvent : Nat
deriving DecidableEq, Repr

/-- One record of the device tree `interrupt-map` property
(the iterator item of the `fdt` crate: child unit address high word, child interrupt
specifier, parent interrupt specifier). -/
structure InterruptMapping where
  childUnitAddressHi : Nat
  childInterruptSpecifier : Nat
  parentInterruptSpecifier : Nat
deriving DecidableEq, Repr

/-- The `interrupt-map-mask` property. -/
structure InterruptMapMask where
  addressMaskHi : Nat
  interruptMask : Nat
deriving DecidableEq, Repr

/-- One entry of the `reg` property of a node. -/
structure FdtReg where
  startingAddress : Nat
  size : Option Nat
deriving DecidableEq, Repr

/-- A device-tree node, with exactly the properties `PciAccess::new` reads. -/
structure FdtNode where
  compatible : Option (List String)
  reg : Option (List FdtReg)
  interruptMap : Option (List InterruptMapping)
  interruptMapMask : Option InterruptMapMask
deriving DecidableEq, Repr

/-- The flattened device tree: its nodes in `all_nodes()` order. -/
structure Fdt where
  nodes : List FdtNode
deriving DecidableEq, Repr

/-- The filter `PciAccess::new` applies over `fdt.all_nodes()`: the
`compatible` list of the node contains `"pci-host-ecam-generic"` or
`"pci-host-cam-generic"`. -/
def isPciHostNode (n : FdtNode) : Bool :=
  match n.compatible with
  | none => false
  | some cs => cs.any fun c => c = "pci-host-ecam-generic" ∨ c = "pci-host-cam-generic"

/-- The per-record body of the remapping loop in `PciAccess::new` (pci.rs
lines 49-73): mask the child address high word, decode bus/device/function
with `get_bits(16..24)` / `get_bits(11..16)` / `get_bits(8..11)`, mask the
pin, and take bits 32..64 of the parent interrupt specifier as the vector.
Returns the `((address, pin as u8), vector)` pair the loop inserts. -/
def decodeMapping (mask : InterruptMapMask) (m : InterruptMapping) :
    (PciAddress × Nat) × Nat :=
  let childAddressHi := m.childUnitAddressHi &&& mask.addressMaskHi
  let address : PciAddress :=
    ⟨0, getBits childAddressHi 16 24, getBits childAddressHi 11 16,
      getBits childAddressHi 8 11⟩
  let pin := m.childInterruptSpecifier &&& mask.interruptMask
  let mappedInterrupt := getBits m.parentInterruptSpecifier 32 64
  ((address, pin % 2 ^ 8), mappedInterrupt)

/-- The remapping loop of `PciAccess::new`: for each record, insert an empty
entry for the mapped vector into `INTERRUPT_ROUTING` and the decoded
`((address, pin), vector)` pair into the remapping table. (The registration
with the low-level interrupt controller is an external side effect and is not
part of the modelled state.) -/
def processMappings (mask : InterruptMapMask) (ms : List InterruptMapping)
    (routing : Routing) (remapping : LegacyMap) : Routing × LegacyMap :=
  match ms with
  | [] => (routing, remapping)
  | m :: rest =>
      let d := decodeMapping mask m
      processMappings mask rest (assocInsert routing d.2 [])
        (assocInsert remapping d.1 d.2)

/-- The constructed accessor. `start` holds the physical base of the ECAM window
address (the kernel-virtual translation `physical_to_virtual` is an external
collaborator and is the identity up to a constant offset, so offsets within
the window are unaffected). -/
structure PciAccess where
  start : Nat
  size : Nat
  legacyInterruptRemapping : LegacyMap
deriving DecidableEq, Repr

/-- Outcome of `PciAccess::new`: `notFound` is the early `return None` (the
`?` on the node search); `panicked` covers the `expect`/`unwrap` calls on
missing `reg`/`interrupt-map`/`interrupt-map-mask`/`size` properties. -/
inductive NewResult where
  | notFound
  | panicked
  | ok (acc : PciAccess) (routing : Routing)
deriving DecidableEq, Repr

/-- The part of `PciAccess::new` (pci.rs lines 36-81) that runs on the located
host-bridge node: read the first `reg` entry, build the remapping tables from
`interrupt-map` / `interrupt-map-mask`, and assemble the accessor. Missing
properties hit `expect`/`unwrap` (`panicked`). -/
def processPciNode (node : FdtNode) (routing : Routing) : NewResult :=
  match node.reg with
  | none => .panicked
  | some [] => .panicked
  | some (ecamWindow :: _) =>
      match node.interruptMap, node.interruptMapMask with
      | some interruptMap, some interruptMapMask =>
          let p := processMappings interruptMapMask interruptMap routing []
          match ecamWindow.size with
          | none => .panicked
          | some size => .ok ⟨ecamWindow.startingAddress, size, p.2⟩ p.1
      | _, _ => .panicked

/-- Model of `PciAccess::new` (pci.rs lines 27-82). Takes the prior contents
of the routing table (the global starts empty at boot) and returns the accessor
together with the updated table. The `?` on the filtered node search is
`notFound`. -/
def PciAccess.new (fdt : Fdt) (routing : Routing) : NewResult :=
  match fdt.nodes.find? isPciHostNode with
  | none => .notFound
  | some node => processPciNode node routing

/-- The ECAM byte offset computed by `PciAccess::address_for` (pci.rs lines
84-92): `bus << 20 | device << 15 | function << 12`, relative to `start`. -/
def addressForOffset (a : PciAddress) : Nat :=
  a.bus <<< 20 ||| a.device <<< 15 ||| a.function <<< 12

/-- Model of `PciAccess::address_for`: base plus the ECAM offset. -/
def PciAccess.addressFor (acc : PciAccess) (a : PciAddress) : Nat :=
  acc.start + addressForOffset a

/-- Model of `configure_legacy` (pci.rs lines 108-117). Creates an event, looks up
`(function, pin)` in the legacy remapping table (`expect` panic when absent,
modelled as `none`), then pushes the event onto the routing entry of the
resolved vector (`unwrap` panic when the vector has no entry). -/
def configure_legacy (acc : PciAccess) (s : SysState)
    (function : PciAddress) (pin : Nat) : Option (EventId × SysState) :=
  let event := s.nextEvent
  match assocGet acc.legacyInterruptRemapping (function, pin) with
  | none => none
  | some remappedInterrupt =>
      match assocGet s.routing remappedInterrupt with
      | none => none
      | some events =>
          some (event,
            ⟨assocInsert s.routing remappedInterrupt (events ++ [event]),
              s.nextEvent + 1⟩)

/-- The MSI capability state `configure_msi` writes through
`set_message_info`: the message address and message data. -/
structure MsiProgramming where
  messageAddress : Nat
  messageData : Nat
deriving DecidableEq, Repr

/-- Model of `configure_msi` (pci.rs lines 119-137). Creates an event, picks the
hardcoded `message_number = 2`, and `insert`s `[event]` for that vector,
replacing any previous entry; then programs the MSI capability of the function
with message address `0x28000000` and message data `2`. The `function`
argument only selects which configuration space the (external) capability
write targets. -/
def configure_msi (s : SysState) (function : PciAddress) :
    EventId × SysState × MsiProgramming :=
  let event := s.nextEvent
  let messageNumber := 2
  (event,
    ⟨assocInsert s.routing messageNumber [event], s.nextEvent + 1⟩,
    ⟨0x28000000, messageNumber⟩)

/-- Model of `pci_types::Bar`, the three shapes `configure_msix` distinguishes. -/
inductive Bar where
  | memory32 (address : Nat) (size : Nat) (prefetchable : Bool)
  | memory64 (address : Nat) (size : Nat) (prefetchable : Bool)
  | ioSpace (port : Nat)
deriving DecidableEq, Repr

/-- The MSI-X capability fields `configure_msix` reads. -/
structure MsixCapability where
  tableOffset : Nat
deriving DecidableEq, Repr

/-- The four 32-bit volatile stores into one MSI-X table entry, together with
the physical base address they target. -/
structure MsixTableWrite where
  tableBasePhys : Nat
  word0 : Nat
  word1 : Nat
  word2 : Nat
  word3 : Nat
deriving DecidableEq, Repr

/-- Model of `configure_msix` (pci.rs lines 139-178). Creates an event, picks the
hardcoded `message_number = 3` and `insert`s `[event]` for it (replacing any
previous entry); computes the table base from the BAR (`u32` add for a 32-bit
memory BAR, `usize` add for a 64-bit one; any other BAR shape is `panic!`,
modelled as `none`); then writes message address `0x28000000`, upper address
`0`, message data `3`, vector control `0`. -/
def configure_msix (s : SysState) (function : PciAddress) (tableBar : Bar)
    (msix : MsixCapability) : Option (EventId × SysState × MsixTableWrite) :=
  let event := s.nextEvent
  let messageNumber := 3
  let s' : SysState :=
    ⟨assocInsert s.routing messageNumber [event], s.nextEvent + 1⟩
  let messageAddress := 0x28000000
  match tableBar with
  | .memory32 address _ _ =>
      let tableBasePhys := (address + msix.tableOffset) % 2 ^ 32
      some (event, s', ⟨tableBasePhys, messageAddress, 0, messageNumber, 0⟩)
  | .memory64 address _ _ =>
      let tableBasePhys := (address + msix.tableOffset) % 2 ^ 64
      some (event, s', ⟨tableBasePhys, messageAddress, 0, messageNumber, 0⟩)
  | .ioSpace _ => none

/-- Model of `pci_interrupt_handler` (pci.rs lines 180-187). Looks up the routing
entry for the vector and signals each event in it; absent entries are ignored.
Returns the list of signalled events (in order) and the unchanged state. -/
def pci_interrupt_handler (s : SysState) (number : Nat) :
    List EventId × SysState :=
  match assocGet s.routing number with
  | none => ([], s)
  | some events => (events, s)

/-! Helper lemmas about the association-list maps. -/

theorem assocGet_insert_self {κ α : Type} [DecidableEq κ]
    (m : List (κ × α)) (k : κ) (v : α) :
    assocGet (assocInsert m k v) k = some v := by
  induction m with
  | nil => simp [assocInsert, assocGet]
  | cons hd tl ih =>
      obtain ⟨k', v'⟩ := hd
      by_cases h : k' = k
      · simp [assocInsert, assocGet, h]
      · simp [assocInsert, assocGet, h, ih]

theorem assocGet_insert_ne {κ α : Type} [DecidableEq κ]
    (m : List (κ × α)) (k k' : κ) (v : α) (h : k' ≠ k) :
    assocGet (assocInsert m k v) k' = assocGet m k' := by
  induction m with
  | nil => simp [assocInsert, assocGet, Ne.symm h]
  | cons hd tl ih =>
      obtain ⟨k₀, v₀⟩ := hd
      by_cases hk : k₀ = k
      · subst hk
        simp [assocInsert, assocGet, Ne.symm h]
      · simp [assocInsert, assocGet, hk, ih]

/-! Helper lemmas about the remapping loop of `PciAccess::new`. -/

theorem processMappings_remapping_stable
    (mask : InterruptMapMask) (ms : List InterruptMapping)
    (r : Routing) (rem : LegacyMap) (k : PciAddress × Nat)
    (hk : ∀ m ∈ ms, (decodeMapping mask m).1 ≠ k) :
    assocGet (processMappings mask ms r rem).2 k = assocGet rem k := by
  induction ms generalizing r rem with
  | nil => rfl
  | cons m rest ih =>
      rw [processMappings, ih _ _ (fun m' hm' => hk m' (by simp [hm']))]
      exact assocGet_insert_ne _ _ _ _ (fun h => hk m (by simp) h.symm)

theorem processMappings_remapping_get
    (mask : InterruptMapMask) (ms : List InterruptMapping)
    (r : Routing) (rem : LegacyMap) (m : InterruptMapping)
    (hm : m ∈ ms)
    (hkeys : (ms.map fun m' => (decodeMapping mask m').1).Nodup) :
    assocGet (processMappings mask ms r rem).2 (decodeMapping mask m).1
      = some (decodeMapping mask m).2 := by
  induction ms generalizing r rem with
  | nil => cases hm
  | cons m₀ rest ih =>
      rw [List.map_cons, List.nodup_cons] at hkeys
      rcases List.mem_cons.mp hm with hm | hm
      · subst hm
        rw [processMappings]
        rw [processMappings_remapping_stable mask rest _ _ _
          (fun m' hm' h => hkeys.1 (by rw [← h]; exact List.mem_map_of_mem _ hm'))]
        exact assocGet_insert_self _ _ _
      · rw [processMappings]
        exact ih _ _ hm hkeys.2

theorem processMappings_routing_empty
    (mask : InterruptMapMask) (ms : List InterruptMapping)
    (r : Routing) (rem : LegacyMap) (v : Nat)
    (h : assocGet r v = some [] ∨ ∃ m ∈ ms, (decodeMapping mask m).2 = v) :
    assocGet (processMappings mask ms r rem).1 v = some [] := by
  induction ms generalizing r rem with
  | nil =>
      rcases h with h | ⟨m, hm, _⟩
      · exact h
      · cases hm
  | cons m₀ rest ih =>
      rw [processMappings]
      by_cases hv : (decodeMapping mask m₀).2 = v
      · exact ih _ _ (Or.inl (hv ▸ assocGet_insert_self _ _ _))
      · refine ih _ _ ?_
        rcases h with h | ⟨m, hm, hmv⟩
        · exact Or.inl ((assocGet_insert_ne _ _ _ _ (fun hh => hv hh.symm)).trans h)
        · rcases List.mem_cons.mp hm with hm | hm
          · exact absurd (hm ▸ hmv) hv
          · exact Or.inr ⟨m, hm, hmv⟩

theorem processMappings_routing_invariant
    (mask : InterruptMapMask) (ms : List InterruptMapping)
    (r : Routing) (rem : LegacyMap)
    (hinv : ∀ k v, assocGet rem k = some v → ∃ evs, assocGet r v = some evs)
    (k : PciAddress × Nat) (v : Nat)
    (h : assocGet (processMappings mask ms r rem).2 k = some v) :
    ∃ evs, assocGet (processMappings mask ms r rem).1 v = some evs := by
  induction ms generalizing r rem with
  | nil => exact hinv k v h
  | cons m₀ rest ih =>
      rw [processMappings] at h ⊢
      refine ih _ _ ?_ h
      intro k' v' hk'
      by_cases hkeq : (decodeMapping mask m₀).1 = k'
      · subst hkeq
        rw [assocGet_insert_self] at hk'
        obtain rfl : (decodeMapping mask m₀).2 = v' := Option.some.inj hk'
        exact ⟨[], assocGet_insert_self _ _ _⟩
      · rw [assocGet_insert_ne _ _ _ _ (fun hh => hkeq hh.symm)] at hk'
        obtain ⟨evs, hevs⟩ := hinv k' v' hk'
        by_cases hveq : (decodeMapping mask m₀).2 = v'
        · exact ⟨[], hveq ▸ assocGet_insert_self _ _ _⟩
        · exact ⟨evs, (assocGet_insert_ne _ _ _ _ (fun hh => hveq hh.symm)).trans hevs⟩

theorem new_ok_parts
    (fdt : Fdt) (r0 : Routing) (acc : PciAccess) (r1 : Routing)
    (node : FdtNode) (ms : List InterruptMapping) (mask : InterruptMapMask)
    (hnew : PciAccess.new fdt r0 = .ok acc r1)
    (hnode : fdt.nodes.find? isPciHostNode = some node)
    (hmap : node.interruptMap = some ms)
    (hmask : node.interruptMapMask = some mask) :
    acc.legacyInterruptRemapping = (processMappings mask ms r0 []).2
      ∧ r1 = (processMappings mask ms r0 []).1 := by
  simp only [PciAccess.new, hnode] at hnew
  rcases hreg : node.reg with _ | ⟨_ | ⟨w, ws⟩⟩
  · simp [processPciNode, hreg] at hnew
  · simp [processPciNode, hreg] at hnew
  · simp only [processPciNode, hreg, hmap, hmask] at hnew
    rcases hsize : w.size with _ | sz
    · simp [hsize] at hnew
    · simp only [hsize, NewResult.ok.injEq] at hnew
      refine ⟨?_, hnew.2.symm⟩
      rw [← hnew.1]

/-! Arithmetic characterisation of the ECAM offset. -/

theorem addressForOffset_eq_sum (a : PciAddress)
    (hd : a.device ≤ 31) (hf : a.function ≤ 7) :
    addressForOffset a
      = a.bus * 2 ^ 20 + a.device * 2 ^ 15 + a.function * 2 ^ 12 := by
  have hf' : a.function * 2 ^ 12 < 2 ^ 15 := by omega
  have hd' : 2 ^ 15 * a.device + a.function * 2 ^ 12 < 2 ^ 20 := by omega
  calc addressForOffset a
      = a.bus <<< 20 ||| (a.device <<< 15 ||| a.function <<< 12) := by
        rw [addressForOffset, Nat.lor_assoc]
    _ = 2 ^ 20 * a.bus ||| (2 ^ 15 * a.device ||| a.function * 2 ^ 12) := by
        rw [Nat.shiftLeft_eq, Nat.shiftLeft_eq, Nat.shiftLeft_eq,
          Nat.mul_comm a.bus, Nat.mul_comm a.device]
    _ = 2 ^ 20 * a.bus ||| (2 ^ 15 * a.device + a.function * 2 ^ 12) := by
        rw [← Nat.mul_add_lt_is_or hf']
    _ = 2 ^ 20 * a.bus + (2 ^ 15 * a.device + a.function * 2 ^ 12) := by
        rw [← Nat.mul_add_lt_is_or hd']
    _ = a.bus * 2 ^ 20 + a.device * 2 ^ 15 + a.function * 2 ^ 12 := by ring

/-- C4: for every valid `(bus, device, function)` triple the configuration
space byte offset equals `bus <<< 20 ||| device <<< 15 ||| function <<< 12`
(equivalently the sum of the three disjoint bit fields), lies inside the ECAM
window (whose size covers the 2^28 bytes of a full 256-bus segment), and is
unique per triple. -/
theorem ecam_offset_correct (bus device function windowSize : Nat)
    (hb : bus ≤ 255) (hd : device ≤ 31) (hf : function ≤ 7)
    (hw : 2 ^ 28 ≤ windowSize) :
    addressForOffset ⟨0, bus, device, function⟩
        = bus <<< 20 ||| device <<< 15 ||| function <<< 12
      ∧ addressForOffset ⟨0, bus, device, function⟩
        = bus * 2 ^ 20 + device * 2 ^ 15 + function * 2 ^ 12
      ∧ addressForOffset ⟨0, bus, device, function⟩ < windowSize
      ∧ ∀ bus' device' function', bus' ≤ 255 → device' ≤ 31 → function' ≤ 7 →
          addressForOffset ⟨0, bus', device', function'⟩
              = addressForOffset ⟨0, bus, device, function⟩ →
          bus' = bus ∧ device' = device ∧ function' = function := by
  have hsum := addressForOffset_eq_sum ⟨0, bus, device, function⟩ hd hf
  dsimp only at hsum
  refine ⟨rfl, hsum, by omega, ?_⟩
  intro bus' device' function' hb' hd' hf' heq
  have hsum' := addressForOffset_eq_sum ⟨0, bus', device', function'⟩ hd' hf'
  dsimp only at hsum'
  rw [hsum, hsum'] at heq
  omega

/-- Witness for C4 at the triple `(1, 2, 3)` and a 256 MiB window. -/
theorem ecam_offset_correct_witness :
    addressForOffset ⟨0, 1, 2, 3⟩ = 1 <<< 20 ||| 2 <<< 15 ||| 3 <<< 12
      ∧ addressForOffset ⟨0, 1, 2, 3⟩ = 1 * 2 ^ 20 + 2 * 2 ^ 15 + 3 * 2 ^ 12
      ∧ addressForOffset ⟨0, 1, 2, 3⟩ < 2 ^ 28
      ∧ ∀ bus' device' function', bus' ≤ 255 → device' ≤ 31 → function' ≤ 7 →
          addressForOffset ⟨0, bus', device', function'⟩
              = addressForOffset ⟨0, 1, 2, 3⟩ →
          bus' = 1 ∧ device' = 2 ∧ function' = 3 :=
  ecam_offset_correct 1 2 3 (2 ^ 28) (by decide) (by decide) (by decide)
    (Nat.le_refl _)

/-! Concrete firmware fixture used by the witnesses: one ECAM host bridge
whose interrupt map wires bus 0, device 3, function 0, pin 1 to platform
vector 0x2A (the mask keeps the device/function bits of the child address
and the low three bits of the pin specifier). -/

def fixtureMask : InterruptMapMask := ⟨0x1800, 7⟩

def fixtureRecord : InterruptMapping := ⟨0x1800, 1, 0x2A * 2 ^ 32⟩

def fixtureNode : FdtNode :=
  ⟨some ["pci-host-ecam-generic"], some [⟨0x30000000, some (2 ^ 28)⟩],
    some [fixtureRecord], some fixtureMask⟩

def fixtureFdt : Fdt := ⟨[fixtureNode]⟩

def fixtureAccess : PciAccess := ⟨0x30000000, 2 ^ 28, [((⟨0, 0, 3, 0⟩, 1), 0x2A)]⟩

def fixtureRouting : Routing := [(0x2A, [])]

/-- C1: for every record of the firmware interrupt map (with pairwise
distinct decoded keys), the legacy remapping table built by `PciAccess::new`
maps the key decoded from the masked child unit address — bus from bits
16..24, device from bits 11..16, function from bits 8..11 of the masked high
word, pin the masked child interrupt specifier truncated to `u8` — to the
platform vector taken from bits 32..64 of the parent interrupt specifier. -/
theorem legacy_resolver_decode
    (fdt : Fdt) (r0 : Routing) (acc : PciAccess) (r1 : Routing)
    (node : FdtNode) (ms : List InterruptMapping) (mask : InterruptMapMask)
    (m : InterruptMapping)
    (hnew : PciAccess.new fdt r0 = .ok acc r1)
    (hnode : fdt.nodes.find? isPciHostNode = some node)
    (hmap : node.interruptMap = some ms)
    (hmask : node.interruptMapMask = some mask)
    (hm : m ∈ ms)
    (hkeys : (ms.map fun m' => (decodeMapping mask m').1).Nodup) :
    assocGet acc.legacyInterruptRemapping
        (⟨0, (m.childUnitAddressHi &&& mask.addressMaskHi) / 2 ^ 16 % 2 ^ 8,
            (m.childUnitAddressHi &&& mask.addressMaskHi) / 2 ^ 11 % 2 ^ 5,
            (m.childUnitAddressHi &&& mask.addressMaskHi) / 2 ^ 8 % 2 ^ 3⟩,
          (m.childInterruptSpecifier &&& mask.interruptMask) % 2 ^ 8)
      = some (m.parentInterruptSpecifier / 2 ^ 32 % 2 ^ 32) := by
  obtain ⟨hleg, -⟩ := new_ok_parts fdt r0 acc r1 node ms mask hnew hnode hmap hmask
  rw [hleg]
  exact processMappings_remapping_get mask ms r0 [] m hm hkeys

/-- Witness for C1 at the fixture record: the decoded key is
`((bus 0, device 3, function 0), pin 1)` and the vector is `0x2A`. -/
theorem legacy_resolver_decode_witness :
    assocGet fixtureAccess.legacyInterruptRemapping (⟨0, 0, 3, 0⟩, 1)
      = some 0x2A :=
  legacy_resolver_decode fixtureFdt [] fixtureAccess fixtureRouting fixtureNode
    [fixtureRecord] fixtureMask fixtureRecord (by decide) (by decide) rfl rfl
    (by decide) (by decide)

/-- C7: after a successful `PciAccess::new`, every vector appearing in the
interrupt map has a routing-table entry holding the empty wait-object list,
and the legacy table maps each decoded key to the vector of its record
(records assumed to have pairwise distinct decoded keys); at the concrete
fixture map (bus 0, device 3, function 0, pin 1, vector 0x2A) the legacy
table maps that key to 0x2A and the routing table holds an empty entry for
0x2A. -/
theorem new_populates_tables
    (fdt : Fdt) (r0 : Routing) (acc : PciAccess) (r1 : Routing)
    (node : FdtNode) (ms : List InterruptMapping) (mask : InterruptMapMask)
    (hnew : PciAccess.new fdt r0 = .ok acc r1)
    (hnode : fdt.nodes.find? isPciHostNode = some node)
    (hmap : node.interruptMap = some ms)
    (hmask : node.interruptMapMask = some mask)
    (hkeys : (ms.map fun m' => (decodeMapping mask m').1).Nodup) :
    (∀ m ∈ ms, assocGet r1 (decodeMapping mask m).2 = some [])
      ∧ (∀ m ∈ ms, assocGet acc.legacyInterruptRemapping (decodeMapping mask m).1
          = some (decodeMapping mask m).2)
      ∧ PciAccess.new fixtureFdt [] = .ok fixtureAccess fixtureRouting
      ∧ assocGet fixtureAccess.legacyInterruptRemapping (⟨0, 0, 3, 0⟩, 1)
          = some 0x2A
      ∧ assocGet fixtureRouting 0x2A = some [] := by
  obtain ⟨hleg, hr1⟩ := new_ok_parts fdt r0 acc r1 node ms mask hnew hnode hmap hmask
  refine ⟨?_, ?_, by decide, by decide, by decide⟩
  · intro m hm
    rw [hr1]
    exact processMappings_routing_empty mask ms r0 [] _ (Or.inr ⟨m, hm, rfl⟩)
  · intro m hm
    rw [hleg]
    exact processMappings_remapping_get mask ms r0 [] m hm hkeys

/-- Witness for C7: the concrete-fixture conjuncts of the theorem, obtained
by applying it to the fixture firmware blob. -/
theorem new_populates_tables_witness :
    PciAccess.new fixtureFdt [] = .ok fixtureAccess fixtureRouting
      ∧ assocGet fixtureAccess.legacyInterruptRemapping (⟨0, 0, 3, 0⟩, 1)
          = some 0x2A
      ∧ assocGet fixtureRouting 0x2A = some [] :=
  (new_populates_tables fixtureFdt [] fixtureAccess fixtureRouting fixtureNode
    [fixtureRecord] fixtureMask (by decide) (by decide) rfl rfl (by decide)).2.2

theorem processPciNode_ne_notFound (node : FdtNode) (r : Routing) :
    processPciNode node r ≠ .notFound := by
  unfold processPciNode
  split
  · simp
  · simp
  · split
    · split <;> simp
    · simp

theorem find?_first {α : Type} (p : α → Bool) (l1 : List α) (a : α)
    (l2 : List α) (h1 : ∀ x ∈ l1, p x = false) (h2 : p a = true) :
    List.find? p (l1 ++ a :: l2) = some a := by
  induction l1 with
  | nil => simp [List.find?_cons_of_pos _ h2]
  | cons x xs ih =>
      rw [List.cons_append,
        List.find?_cons_of_neg _ (by simp [h1 x (by simp)])]
      exact ih fun y hy => h1 y (by simp [hy])

/-- C8: `PciAccess::new` yields the "not found" outcome (the `?` returning
`None`) exactly when no firmware node carries one of the two recognised
host-bridge compatible strings, and when matching nodes exist it is the first
one (in `all_nodes()` order) that construction proceeds with. -/
theorem new_notFound_iff (fdt : Fdt) (r : Routing) :
    (PciAccess.new fdt r = .notFound ↔ ∀ n ∈ fdt.nodes, isPciHostNode n = false)
      ∧ ∀ l1 node l2, fdt.nodes = l1 ++ node :: l2 →
          (∀ n ∈ l1, isPciHostNode n = false) → isPciHostNode node = true →
          PciAccess.new fdt r = processPciNode node r := by
  constructor
  · constructor
    · intro h n hn
      rcases hf : fdt.nodes.find? isPciHostNode with _ | node
      · have := List.find?_eq_none.mp hf n hn
        simpa using this
      · rw [PciAccess.new, hf] at h
        exact absurd h (processPciNode_ne_notFound node r)
    · intro hall
      have hf : fdt.nodes.find? isPciHostNode = none :=
        List.find?_eq_none.mpr fun x hx => by simp [hall x hx]
      rw [PciAccess.new, hf]
  · intro l1 node l2 hsplit h1 h2
    rw [PciAccess.new, hsplit, find?_first _ l1 node l2 h1 h2]

/-- Witness for C8: an empty firmware tree gives the not-found outcome, and
on the fixture tree construction processes the (first and only) matching
node. -/
theorem new_notFound_iff_witness :
    PciAccess.new ⟨[]⟩ [] = .notFound
      ∧ PciAccess.new fixtureFdt [] = processPciNode fixtureNode [] :=
  ⟨(new_notFound_iff ⟨[]⟩ []).1.mpr (by simp),
   (new_notFound_iff fixtureFdt []).2 [] fixtureNode [] rfl (by simp)
     (by decide)⟩

/-- C2: on the state produced by `PciAccess::new`, `configure_legacy` on a
`(function, pin)` pair present in the firmware-derived remapping table never
panics: it creates a new wait-object, appends it to the routing entry of the
resolved vector, and returns it, a distinct wait-object per call; on a pair
absent from the table the call panics (`expect`, modelled `none`) instead of
returning an error. -/
theorem configure_legacy_spec
    (fdt : Fdt) (r0 : Routing) (acc : PciAccess) (r1 : Routing)
    (node : FdtNode) (ms : List InterruptMapping) (mask : InterruptMapMask)
    (n : Nat)
    (hnew : PciAccess.new fdt r0 = .ok acc r1)
    (hnode : fdt.nodes.find? isPciHostNode = some node)
    (hmap : node.interruptMap = some ms)
    (hmask : node.interruptMapMask = some mask) :
    (∀ f pin v, assocGet acc.legacyInterruptRemapping (f, pin) = some v →
      ∃ evs, assocGet r1 v = some evs
        ∧ configure_legacy acc ⟨r1, n⟩ f pin
            = some (n, ⟨assocInsert r1 v (evs ++ [n]), n + 1⟩)
        ∧ assocGet (assocInsert r1 v (evs ++ [n])) v = some (evs ++ [n])
        ∧ (∃ s2, configure_legacy acc ⟨assocInsert r1 v (evs ++ [n]), n + 1⟩
            f pin = some (n + 1, s2))
        ∧ n + 1 ≠ n)
      ∧ ∀ f pin, assocGet acc.legacyInterruptRemapping (f, pin) = none →
          configure_legacy acc ⟨r1, n⟩ f pin = none := by
  obtain ⟨hleg, hr1⟩ := new_ok_parts fdt r0 acc r1 node ms mask hnew hnode hmap hmask
  constructor
  · intro f pin v hv
    obtain ⟨evs, hevs⟩ : ∃ evs, assocGet r1 v = some evs := by
      rw [hr1]
      refine processMappings_routing_invariant mask ms r0 [] ?_ (f, pin) v ?_
      · intro k v' hk
        simp [assocGet] at hk
      · rw [← hleg]; exact hv
    refine ⟨evs, hevs, ?_, assocGet_insert_self _ _ _, ?_, by omega⟩
    · simp only [configure_legacy, hv, hevs]
    · exact ⟨⟨assocInsert (assocInsert r1 v (evs ++ [n])) v
          ((evs ++ [n]) ++ [n + 1]), n + 1 + 1⟩,
        by simp only [configure_legacy, hv, assocGet_insert_self]⟩
  · intro f pin hnone
    simp only [configure_legacy, hnone]

/-- Witness for C2 on the fixture: the pair `((0, 3, 0), pin 1)` is present
and resolves to vector 0x2A, configuration succeeds twice with distinct
wait-objects, and an absent pair panics. -/
theorem configure_legacy_spec_witness :
    (∃ evs, assocGet fixtureRouting 0x2A = some evs
      ∧ configure_legacy fixtureAccess ⟨fixtureRouting, 0⟩ ⟨0, 0, 3, 0⟩ 1
          = some (0, ⟨assocInsert fixtureRouting 0x2A (evs ++ [0]), 0 + 1⟩)
      ∧ assocGet (assocInsert fixtureRouting 0x2A (evs ++ [0])) 0x2A
          = some (evs ++ [0])
      ∧ (∃ s2, configure_legacy fixtureAccess
          ⟨assocInsert fixtureRouting 0x2A (evs ++ [0]), 0 + 1⟩ ⟨0, 0, 3, 0⟩ 1
          = some (0 + 1, s2))
      ∧ 0 + 1 ≠ 0)
      ∧ configure_legacy fixtureAccess ⟨fixtureRouting, 0⟩ ⟨0, 0, 0, 0⟩ 1 = none :=
  ⟨(configure_legacy_spec fixtureFdt [] fixtureAccess fixtureRouting fixtureNode
      [fixtureRecord] fixtureMask 0 (by decide) (by decide) rfl rfl).1
      ⟨0, 0, 3, 0⟩ 1 0x2A (by decide),
   (configure_legacy_spec fixtureFdt [] fixtureAccess fixtureRouting fixtureNode
      [fixtureRecord] fixtureMask 0 (by decide) (by decide) rfl rfl).2
      ⟨0, 0, 0, 0⟩ 1 (by decide)⟩

/-- C3: one invocation of the dispatch handler for a vector with a routing
entry signals every wait-object registered under that vector exactly once,
signals nothing that is not in that entry (in particular nothing registered
only under other vectors), and leaves the state unchanged. -/
theorem dispatch_signals_all (s : SysState) (number : Nat)
    (events : List EventId)
    (h : assocGet s.routing number = some events) (hnd : events.Nodup) :
    (pci_interrupt_handler s number).1 = events
      ∧ (pci_interrupt_handler s number).2 = s
      ∧ (∀ e ∈ events, (pci_interrupt_handler s number).1.count e = 1)
      ∧ ∀ e, e ∉ events → (pci_interrupt_handler s number).1.count e = 0 := by
  have hh : pci_interrupt_handler s number = (events, s) := by
    simp only [pci_interrupt_handler, h]
  rw [hh]
  exact ⟨rfl, rfl, fun e he => List.count_eq_one_of_mem hnd he,
    fun e he => List.count_eq_zero_of_not_mem he⟩

/-- Witness for C3: vector 5 holds wait-objects 7 and 9 while vector 6 holds
wait-object 4; dispatching vector 5 signals 7 and 9 once each and not 4. -/
theorem dispatch_signals_all_witness :
    (pci_interrupt_handler ⟨[(5, [7, 9]), (6, [4])], 0⟩ 5).1 = [7, 9]
      ∧ (pci_interrupt_handler ⟨[(5, [7, 9]), (6, [4])], 0⟩ 5).2
          = ⟨[(5, [7, 9]), (6, [4])], 0⟩
      ∧ (∀ e ∈ [7, 9],
          (pci_interrupt_handler ⟨[(5, [7, 9]), (6, [4])], 0⟩ 5).1.count e = 1)
      ∧ ∀ e, e ∉ [7, 9] →
          (pci_interrupt_handler ⟨[(5, [7, 9]), (6, [4])], 0⟩ 5).1.count e = 0 :=
  dispatch_signals_all ⟨[(5, [7, 9]), (6, [4])], 0⟩ 5 [7, 9] (by decide)
    (by decide)

/-- C6: dispatching a vector that has no routing entry is a silent no-op:
no panic, no wait-object signalled, state unchanged. -/
theorem dispatch_unmapped_noop (s : SysState) (number : Nat)
    (h : assocGet s.routing number = none) :
    pci_interrupt_handler s number = ([], s) := by
  simp only [pci_interrupt_handler, h]

/-- Witness for C6: dispatching unmapped vector 6 signals nothing and keeps
the table. -/
theorem dispatch_unmapped_noop_witness :
    pci_interrupt_handler ⟨[(5, [7])], 3⟩ 6 = ([], ⟨[(5, [7])], 3⟩) :=
  dispatch_unmapped_noop ⟨[(5, [7])], 3⟩ 6 (by decide)

/-- C5: `configure_msix` computes the MSI-X table physical base as the BAR
address plus the capability table offset for both 32-bit and 64-bit memory
BARs (the hypotheses rule out wrap-around of the machine addition), and
writes one 16-byte table entry as four 32-bit stores: the chosen message
address, 0, the vector number 3 (under which the returned wait-object is
registered in the routing table), and 0 (unmasked); a BAR of any other shape
panics (modelled `none`). -/
theorem configure_msix_spec (s : SysState) (f : PciAddress)
    (msix : MsixCapability) :
    (∀ address size pf, address + msix.tableOffset < 2 ^ 32 →
      configure_msix s f (.memory32 address size pf) msix
        = some (s.nextEvent,
            ⟨assocInsert s.routing 3 [s.nextEvent], s.nextEvent + 1⟩,
            ⟨address + msix.tableOffset, 0x28000000, 0, 3, 0⟩)
        ∧ assocGet (assocInsert s.routing 3 [s.nextEvent]) 3
            = some [s.nextEvent])
      ∧ (∀ address size pf, address + msix.tableOffset < 2 ^ 64 →
        configure_msix s f (.memory64 address size pf) msix
          = some (s.nextEvent,
              ⟨assocInsert s.routing 3 [s.nextEvent], s.nextEvent + 1⟩,
              ⟨address + msix.tableOffset, 0x28000000, 0, 3, 0⟩)
          ∧ assocGet (assocInsert s.routing 3 [s.nextEvent]) 3
              = some [s.nextEvent])
      ∧ ∀ port, configure_msix s f (.ioSpace port) msix = none := by
  refine ⟨?_, ?_, fun port => rfl⟩ <;>
    · intro address size pf hlt
      refine ⟨?_, assocGet_insert_self _ _ _⟩
      simp only [configure_msix]
      rw [Nat.mod_eq_of_lt hlt]

/-- Witness for C5 at the spec scenario: a 64-bit memory BAR at `0x40000000`
with table offset `0x1000` yields table base `0x40001000`, message data 3 and
vector control 0; an I/O BAR panics. -/
theorem configure_msix_spec_witness :
    (configure_msix ⟨[], 0⟩ ⟨0, 0, 0, 0⟩ (.memory64 0x40000000 0x100000 false)
        ⟨0x1000⟩
      = some (0, ⟨assocInsert [] 3 [0], 0 + 1⟩,
          ⟨0x40001000, 0x28000000, 0, 3, 0⟩)
      ∧ assocGet (assocInsert ([] : Routing) 3 [(0 : EventId)]) 3 = some [0])
      ∧ configure_msix ⟨[], 0⟩ ⟨0, 0, 0, 0⟩ (.ioSpace 0) ⟨0x1000⟩ = none :=
  ⟨(configure_msix_spec ⟨[], 0⟩ ⟨0, 0, 0, 0⟩ ⟨0x1000⟩).2.1 0x40000000 0x100000
      false (by decide),
   (configure_msix_spec ⟨[], 0⟩ ⟨0, 0, 0, 0⟩ ⟨0x1000⟩).2.2 0⟩

/-- C10: `configure_msi` always registers its wait-object under the fixed
vector 2 and `configure_msix` under the fixed vector 3, independently of the
function argument, and each call replaces the whole routing entry for that
vector: afterwards the entry holds exactly the newly created wait-object,
and any waiter previously registered under the vector is gone from it. -/
theorem msi_msix_fixed_vectors (s : SysState) (f f' : PciAddress)
    (address size : Nat) (pf : Bool) (msix : MsixCapability) :
    ((configure_msi s f).1 = s.nextEvent
      ∧ (configure_msi s f).2.1.routing = assocInsert s.routing 2 [s.nextEvent]
      ∧ assocGet (configure_msi s f).2.1.routing 2 = some [s.nextEvent]
      ∧ configure_msi s f = configure_msi s f')
      ∧ (∀ e evs evs', assocGet s.routing 2 = some evs → e ∈ evs →
          e ≠ s.nextEvent →
          assocGet (configure_msi s f).2.1.routing 2 = some evs' → e ∉ evs')
      ∧ (configure_msix s f (.memory64 address size pf) msix
          = some (s.nextEvent,
              ⟨assocInsert s.routing 3 [s.nextEvent], s.nextEvent + 1⟩,
              ⟨(address + msix.tableOffset) % 2 ^ 64, 0x28000000, 0, 3, 0⟩)
        ∧ assocGet (assocInsert s.routing 3 [s.nextEvent]) 3
            = some [s.nextEvent]
        ∧ configure_msix s f (.memory64 address size pf) msix
            = configure_msix s f' (.memory64 address size pf) msix)
      ∧ ∀ e evs evs', assocGet s.routing 3 = some evs → e ∈ evs →
          e ≠ s.nextEvent →
          assocGet (assocInsert s.routing 3 [s.nextEvent]) 3 = some evs' →
          e ∉ evs' := by
  refine ⟨⟨rfl, rfl, assocGet_insert_self _ _ _, rfl⟩, ?_, ⟨rfl,
    assocGet_insert_self _ _ _, rfl⟩, ?_⟩
  · intro e evs evs' _ _ hne hget
    have : evs' = [s.nextEvent] :=
      Option.some.inj ((assocGet_insert_self s.routing 2 [s.nextEvent]).symm.trans
        hget).symm
    subst this
    simp [hne]
  · intro e evs evs' _ _ hne hget
    have : evs' = [s.nextEvent] :=
      Option.some.inj ((assocGet_insert_self s.routing 3 [s.nextEvent]).symm.trans
        hget).symm
    subst this
    simp [hne]

/-- Witness for C10: with wait-objects 9 and 8 previously registered under
vectors 2 and 3, one MSI and one MSI-X configuration evict them; the new
entries hold exactly the fresh wait-object 0. -/
theorem msi_msix_fixed_vectors_witness :
    (configure_msi ⟨[(2, [9]), (3, [8])], 0⟩ ⟨0, 0, 0, 0⟩).1 = 0
      ∧ (9 : EventId) ∉ ([0] : List EventId)
      ∧ (8 : EventId) ∉ ([0] : List EventId) :=
  ⟨(msi_msix_fixed_vectors ⟨[(2, [9]), (3, [8])], 0⟩ ⟨0, 0, 0, 0⟩ ⟨0, 0, 1, 0⟩
      0x40000000 0x100000 false ⟨0x1000⟩).1.1,
   (msi_msix_fixed_vectors ⟨[(2, [9]), (3, [8])], 0⟩ ⟨0, 0, 0, 0⟩ ⟨0, 0, 1, 0⟩
      0x40000000 0x100000 false ⟨0x1000⟩).2.1 9 [9] [0] (by decide) (by decide)
      (by decide) (by decide),
   (msi_msix_fixed_vectors ⟨[(2, [9]), (3, [8])], 0⟩ ⟨0, 0, 0, 0⟩ ⟨0, 0, 1, 0⟩
      0x40000000 0x100000 false ⟨0x1000⟩).2.2.2 8 [8] [0] (by decide)
      (by decide) (by decide) (by decide)⟩

/-- C9 counterexample: starting from the boot state, a first `configure_msi`
call returns wait-object 0; a second call for the same function leaves the
entry of vector 2 holding only its own wait-object 1, so the second
wait-object does not sit alongside the first — repeating MSI configuration
replaces rather than duplicates. -/
theorem reconfigure_duplicates_counterexample :
    (configure_msi ⟨[], 0⟩ ⟨0, 0, 3, 0⟩).1 = 0
      ∧ assocGet (configure_msi (configure_msi ⟨[], 0⟩ ⟨0, 0, 3, 0⟩).2.1
          ⟨0, 0, 3, 0⟩).2.1.routing 2 = some [1]
      ∧ (0 : EventId) ∉ ([1] : List EventId) := by decide

/-- C9 amended: repeating `configure_legacy` for the same `(function, pin)`
does add a second, distinct wait-object alongside the first on the resolved
vector; repeating `configure_msi` or `configure_msix` instead replaces the
entry of its fixed vector, leaving exactly the new wait-object and dropping
the one created by the first call. -/
theorem reconfigure_behaviour
    (acc : PciAccess) (s : SysState) (f : PciAddress) (pin v : Nat)
    (evs : List EventId) (address size : Nat) (pf : Bool)
    (msix : MsixCapability)
    (h1 : assocGet acc.legacyInterruptRemapping (f, pin) = some v)
    (h2 : assocGet s.routing v = some evs) :
    (∃ s1, configure_legacy acc s f pin = some (s.nextEvent, s1)
      ∧ ∃ s2, configure_legacy acc s1 f pin = some (s.nextEvent + 1, s2)
        ∧ assocGet s2.routing v
            = some ((evs ++ [s.nextEvent]) ++ [s.nextEvent + 1])
        ∧ s.nextEvent ≠ s.nextEvent + 1)
      ∧ (assocGet (configure_msi (configure_msi s f).2.1 f).2.1.routing 2
          = some [s.nextEvent + 1]
        ∧ (configure_msi s f).1 ∉ [s.nextEvent + 1])
      ∧ ∃ r1, configure_msix s f (.memory64 address size pf) msix = some r1
        ∧ ∃ r2, configure_msix r1.2.1 f (.memory64 address size pf) msix
              = some r2
          ∧ assocGet r2.2.1.routing 3 = some [s.nextEvent + 1]
          ∧ r1.1 ∉ [s.nextEvent + 1] := by
  refine ⟨?_, ⟨?_, ?_⟩, ?_⟩
  · refine ⟨⟨assocInsert s.routing v (evs ++ [s.nextEvent]), s.nextEvent + 1⟩,
      by simp only [configure_legacy, h1, h2], ?_⟩
    refine ⟨⟨assocInsert (assocInsert s.routing v (evs ++ [s.nextEvent])) v
        ((evs ++ [s.nextEvent]) ++ [s.nextEvent + 1]), s.nextEvent + 1 + 1⟩,
      by simp only [configure_legacy, h1, assocGet_insert_self],
      assocGet_insert_self _ _ _, by omega⟩
  · exact assocGet_insert_self _ _ _
  · intro hmem
    have heq : s.nextEvent = s.nextEvent + 1 := List.mem_singleton.mp hmem
    omega
  · refine ⟨(s.nextEvent,
        ⟨assocInsert s.routing 3 [s.nextEvent], s.nextEvent + 1⟩,
        ⟨(address + msix.tableOffset) % 2 ^ 64, 0x28000000, 0, 3, 0⟩),
      rfl, (s.nextEvent + 1,
        ⟨assocInsert (assocInsert s.routing 3 [s.nextEvent]) 3
            [s.nextEvent + 1], s.nextEvent + 1 + 1⟩,
        ⟨(address + msix.tableOffset) % 2 ^ 64, 0x28000000, 0, 3, 0⟩),
      rfl, assocGet_insert_self _ _ _, by simp⟩

/-- Witness for the amended C9 at the fixture: the legacy pair is wired to
vector 0x2A, and concrete BAR data for the MSI-X part. -/
theorem reconfigure_behaviour_witness :
    (∃ s1, configure_legacy fixtureAccess ⟨fixtureRouting, 0⟩ ⟨0, 0, 3, 0⟩ 1
        = some (0, s1)
      ∧ ∃ s2, configure_legacy fixtureAccess s1 ⟨0, 0, 3, 0⟩ 1 = some (0 + 1, s2)
        ∧ assocGet s2.routing 0x2A = some (([] ++ [0]) ++ [0 + 1])
        ∧ (0 : EventId) ≠ 0 + 1)
      ∧ (assocGet (configure_msi
            (configure_msi ⟨fixtureRouting, 0⟩ ⟨0, 0, 3, 0⟩).2.1
            ⟨0, 0, 3, 0⟩).2.1.routing 2 = some [0 + 1]
        ∧ (configure_msi ⟨fixtureRouting, 0⟩ ⟨0, 0, 3, 0⟩).1 ∉ [0 + 1])
      ∧ ∃ r1, configure_msix ⟨fixtureRouting, 0⟩ ⟨0, 0, 3, 0⟩
            (.memory64 0x40000000 0x100000 false) ⟨0x1000⟩ = some r1
        ∧ ∃ r2, configure_msix r1.2.1 ⟨0, 0, 3, 0⟩
              (.memory64 0x40000000 0x100000 false) ⟨0x1000⟩ = some r2
          ∧ assocGet r2.2.1.routing 3 = some [0 + 1]
          ∧ r1.1 ∉ [0 + 1] :=
  reconfigure_behaviour fixtureAccess ⟨fixtureRouting, 0⟩ ⟨0, 0, 3, 0⟩ 1 0x2A
    [] 0x40000000 0x100000 false ⟨0x1000⟩ (by decide) (by decide)
